import Mathlib

/-!
Verification of the `form` package (struct ⇄ url.Values marshalling).

The development shallowly embeds `form.go`: Go structs become lists of
fields carrying a tag, a settability flag (`CanSet`) and a typed value;
`url.Values` becomes an association list from keys to value lists.
Machine integers are `Int`/`Nat` with explicit width bounds; Go `float64`
values are represented by the exact rational value of the binary float,
so the fixed-point/scientific formatters operate on exact rationals.
-/

namespace FormSpec

/-! ## Decimal digits -/

/-- One base-10 digit as a character, `digitChar 3 = '3'`. -/
def digitChar (d : Nat) : Char := Char.ofNat (48 + d)

/-- Value of a decimal digit character, `none` for non-digits. -/
def digitVal (c : Char) : Option Nat :=
  if 48 ≤ c.toNat ∧ c.toNat ≤ 57 then some (c.toNat - 48) else none

/-- Is `c` an ASCII decimal digit? -/
def isDigit (c : Char) : Bool := decide (48 ≤ c.toNat ∧ c.toNat ≤ 57)

/-- Little-endian base-10 digits of `n`; the first argument is fuel
(`n` itself suffices since `n / 10 < n` for `n ≥ 1`). -/
def natDigitsAux : Nat → Nat → List Nat
  | 0, _ => []
  | _, 0 => []
  | fuel + 1, n => n % 10 :: natDigitsAux fuel (n / 10)

/-- Little-endian base-10 digits of `n` (`[]` for `0`). -/
def natDigits (n : Nat) : List Nat := natDigitsAux n n

/-- Decimal representation of `n`, most significant digit first, as Go's
`%d` prints an unsigned value. -/
def natReprL (n : Nat) : List Char :=
  if n = 0 then ['0'] else ((natDigits n).reverse).map digitChar

/-- Decimal representation of `n` as a string. -/
def natRepr (n : Nat) : String := String.mk (natReprL n)

/-- Decimal representation of `v` as Go's `%d` prints a signed value. -/
def intReprL (v : Int) : List Char :=
  if v < 0 then '-' :: natReprL v.natAbs else natReprL v.natAbs

/-- Decimal representation of `v` as a string. -/
def intRepr (v : Int) : String := String.mk (intReprL v)

/-- Value of a most-significant-first digit list. -/
def digitsVal (ds : List Nat) : Nat := ds.foldl (fun a d => a * 10 + d) 0

/-- Value of a little-endian digit list. -/
def digitsValLE : List Nat → Nat
  | [] => 0
  | d :: ds => d + 10 * digitsValLE ds

/-- Digit values of a character list; `none` when any character is not a
decimal digit. -/
def charsToDigits : List Char → Option (List Nat)
  | [] => some []
  | c :: cs =>
    match digitVal c, charsToDigits cs with
    | some d, some ds => some (d :: ds)
    | _, _ => none

/-- Read a most-significant-first run of digit characters. -/
def parseDigitsL (cs : List Char) : Option Nat :=
  (charsToDigits cs).map digitsVal

/-! ## Round-trip lemmas for decimal digits -/

theorem natDigitsAux_lt (fuel n : Nat) : ∀ d ∈ natDigitsAux fuel n, d < 10 := by
  induction fuel generalizing n with
  | zero => intro d hd; simp [natDigitsAux] at hd
  | succ fuel ih =>
    intro d hd
    match n with
    | 0 => simp [natDigitsAux] at hd
    | m + 1 =>
      simp only [natDigitsAux, List.mem_cons] at hd
      rcases hd with h | h
      · omega
      · exact ih _ _ h

theorem natDigits_lt (n : Nat) : ∀ d ∈ natDigits n, d < 10 :=
  natDigitsAux_lt n n

theorem digitsValLE_natDigitsAux (fuel n : Nat) (h : n ≤ fuel) :
    digitsValLE (natDigitsAux fuel n) = n := by
  induction fuel generalizing n with
  | zero =>
    interval_cases n
    simp [natDigitsAux, digitsValLE]
  | succ fuel ih =>
    match n with
    | 0 => simp [natDigitsAux, digitsValLE]
    | m + 1 =>
      have hdiv : (m + 1) / 10 ≤ fuel := by omega
      simp only [natDigitsAux, digitsValLE, ih _ hdiv]
      omega

theorem digitsValLE_natDigits (n : Nat) : digitsValLE (natDigits n) = n :=
  digitsValLE_natDigitsAux n n (Nat.le_refl n)

theorem natDigitsAux_len_le (fuel n k : Nat) (h : n < 10 ^ k) :
    (natDigitsAux fuel n).length ≤ k := by
  induction fuel generalizing n k with
  | zero => simp [natDigitsAux]
  | succ fuel ih =>
    match n with
    | 0 => simp [natDigitsAux]
    | m + 1 =>
      match k with
      | 0 => rw [pow_zero] at h; omega
      | k + 1 =>
        have hdiv : (m + 1) / 10 < 10 ^ k := by
          have h10 : 10 ^ (k + 1) = 10 ^ k * 10 := by ring
          rw [h10] at h
          omega
        simpa [natDigitsAux] using ih _ _ hdiv


theorem natDigitsAux_ne_nil (fuel n : Nat) (hn : n ≠ 0) (hf : fuel ≠ 0) :
    natDigitsAux fuel n ≠ [] := by
  match fuel, n with
  | 0, _ => exact absurd rfl hf
  | fuel + 1, 0 => exact absurd rfl hn
  | fuel + 1, m + 1 => simp [natDigitsAux]

/-- Mapping digit characters back to values undoes `digitChar`. -/
theorem digitVal_digitChar (d : Nat) (h : d < 10) :
    digitVal (digitChar d) = some d := by
  interval_cases d <;> rfl

theorem digitVal_isDigit (c : Char) (d : Nat) (h : digitVal c = some d) :
    isDigit c = true := by
  unfold digitVal at h
  unfold isDigit
  split at h
  · rename_i hc
    exact decide_eq_true hc
  · exact absurd h (by simp)

theorem charsToDigits_map (ds : List Nat) (h : ∀ d ∈ ds, d < 10) :
    charsToDigits (ds.map digitChar) = some ds := by
  induction ds with
  | nil => rfl
  | cons d ds ih =>
    have hd : d < 10 := h d (List.mem_cons_self d ds)
    have hds : ∀ x ∈ ds, x < 10 := fun x hx => h x (List.mem_cons_of_mem d hx)
    simp [charsToDigits, digitVal_digitChar d hd, ih hds]

theorem foldl_digits_shift (l : List Nat) (a : Nat) :
    l.foldl (fun x d => x * 10 + d) a = a * 10 ^ l.length + digitsVal l := by
  unfold digitsVal
  induction l generalizing a with
  | nil => simp
  | cons d ds ih =>
    simp only [List.foldl_cons, List.length_cons]
    rw [ih (a * 10 + d), ih (0 * 10 + d), pow_succ]
    ring

theorem digitsVal_append (a b : List Nat) :
    digitsVal (a ++ b) = digitsVal a * 10 ^ b.length + digitsVal b := by
  show List.foldl _ 0 (a ++ b) = _
  rw [List.foldl_append]
  exact foldl_digits_shift b (digitsVal a)

theorem digitsVal_reverse_LE (ds : List Nat) :
    digitsVal ds.reverse = digitsValLE ds := by
  induction ds with
  | nil => rfl
  | cons d ds ih =>
    rw [List.reverse_cons, digitsVal_append, ih]
    show digitsValLE ds * 10 ^ 1 + (0 * 10 + d) = digitsValLE (d :: ds)
    simp only [digitsValLE]
    ring

/-- Parsing the decimal representation of `n` recovers `n`. -/
theorem parseDigitsL_natReprL (n : Nat) : parseDigitsL (natReprL n) = some n := by
  unfold natReprL parseDigitsL
  by_cases h : n = 0
  · subst h; rfl
  · simp only [h, if_false]
    have hlt : ∀ d ∈ (natDigits n).reverse, d < 10 := by
      intro d hd
      exact natDigits_lt n d (List.mem_reverse.mp hd)
    rw [charsToDigits_map _ hlt]
    simp [digitsVal_reverse_LE, digitsValLE_natDigits]

/-! ## strconv: error messages and parsers (from Go's strconv, as used by
`parseFormValue` in form.go) -/

/-- Rendering of `strconv.NumError`: Go prints
`strconv.<Fn>: parsing <quoted input>: <reason>`. Go quotes the input with
`strconv.Quote`; for inputs without characters needing escapes (the only
ones the claims mention) that is plain double-quoting, which is what we
model. -/
def numErrMsg (fn input reason : String) : String :=
  "strconv." ++ fn ++ ": parsing " ++ "\"" ++ input ++ "\"" ++ ": " ++ reason

def syntaxMsg (fn input : String) : String := numErrMsg fn input "invalid syntax"

def rangeMsg (fn input : String) : String := numErrMsg fn input "value out of range"

/-- `strconv.ParseBool`: the exact literal set Go accepts. -/
def parseGoBool (s : String) : Except String Bool :=
  if s = "1" ∨ s = "t" ∨ s = "T" ∨ s = "TRUE" ∨ s = "true" ∨ s = "True" then
    .ok true
  else if s = "0" ∨ s = "f" ∨ s = "F" ∨ s = "FALSE" ∨ s = "false" ∨ s = "False" then
    .ok false
  else
    .error (syntaxMsg "ParseBool" s)

/-- `strconv.ParseUint(s, 10, 64)`: no sign permitted, decimal digits only,
value must fit 64 bits.  Go accumulates with a cutoff check; on a decimal
numeral that is equivalent to comparing the full value against `2^64 - 1`. -/
def parseGoUint (s : String) : Except String Nat :=
  match parseDigitsL s.data with
  | none => .error (syntaxMsg "ParseUint" s)
  | some n =>
    if s.data = [] then .error (syntaxMsg "ParseUint" s)
    else if n ≥ 2 ^ 64 then .error (rangeMsg "ParseUint" s)
    else .ok n

/-- Strip a single leading `+`/`-`, reporting whether it was `-` (the sign
handling at the top of Go's `ParseInt`). -/
def stripSign : List Char → Bool × List Char
  | [] => (false, [])
  | c :: rest =>
    if c = '-' then (true, rest)
    else if c = '+' then (false, rest)
    else (false, c :: rest)

/-- `strconv.ParseInt(s, 10, 64)`: optional single `+`/`-` sign, then a
nonempty run of decimal digits, value in the 64-bit signed range. -/
def parseGoInt (s : String) : Except String Int :=
  let sgn : Bool × List Char := stripSign s.data
  match parseDigitsL sgn.2 with
  | none => .error (syntaxMsg "ParseInt" s)
  | some n =>
    if sgn.2 = [] then .error (syntaxMsg "ParseInt" s)
    else
      let v : Int := if sgn.1 then -(n : Int) else (n : Int)
      if v < -(2 ^ 63) ∨ v > 2 ^ 63 - 1 then .error (rangeMsg "ParseInt" s)
      else .ok v

/-! ## Round trips for the integer parsers -/

theorem charsToDigits_nil_iff (cs : List Char) :
    charsToDigits cs = some [] ↔ cs = [] := by
  constructor
  · intro h
    match cs with
    | [] => rfl
    | c :: rest =>
      simp only [charsToDigits] at h
      rcases hd : digitVal c with _ | d <;> rw [hd] at h
      · exact absurd h (by simp)
      · rcases hr : charsToDigits rest with _ | ds <;> rw [hr] at h <;> simp at h
  · intro h; subst h; rfl

theorem natReprL_ne_nil (n : Nat) : natReprL n ≠ [] := by
  unfold natReprL
  by_cases h : n = 0
  · simp [h]
  · simp only [h, if_false]
    intro hmap
    have := natDigitsAux_ne_nil n n h h
    unfold natDigits at *
    rw [List.map_eq_nil_iff, List.reverse_eq_nil_iff] at hmap
    exact this hmap

/-- Parsing the `%d` rendering of an unsigned value recovers it (used for
the round-trip claim). -/
theorem parseGoUint_natRepr (n : Nat) (h : n < 2 ^ 64) :
    parseGoUint (natRepr n) = .ok n := by
  unfold parseGoUint natRepr
  show (match parseDigitsL (natReprL n) with
    | none => _ | some m => _) = _
  rw [parseDigitsL_natReprL]
  simp only [natReprL_ne_nil n, if_false]
  rw [if_neg (by omega)]


theorem natReprL_head_digit (n : Nat) :
    ∃ c rest, natReprL n = c :: rest ∧ isDigit c = true := by
  unfold natReprL
  by_cases h : n = 0
  · exact ⟨'0', [], by simp [h], rfl⟩
  · simp only [h, if_false]
    rcases hd : (natDigits n).reverse with _ | ⟨d, ds⟩
    · rw [List.reverse_eq_nil_iff] at hd
      exact absurd hd (natDigitsAux_ne_nil n n h h)
    · refine ⟨digitChar d, ds.map digitChar, by simp [hd], ?_⟩
      have hlt : d < 10 :=
        natDigits_lt n d (List.mem_reverse.mp (hd ▸ List.mem_cons_self d ds))
      exact digitVal_isDigit _ d (digitVal_digitChar d hlt)

theorem isDigit_ne_sign (c : Char) (h : isDigit c = true) : c ≠ '-' ∧ c ≠ '+' := by
  constructor <;> intro he <;> subst he <;> simp [isDigit] at h

theorem stripSign_neg (l : List Char) : stripSign ('-' :: l) = (true, l) := by
  simp [stripSign]

theorem stripSign_digit (c : Char) (l : List Char) (h : isDigit c = true) :
    stripSign (c :: l) = (false, c :: l) := by
  obtain ⟨hm, hp⟩ := isDigit_ne_sign c h
  simp [stripSign, hm, hp]

/-- Parsing the `%d` rendering of a signed value recovers it. -/
theorem parseGoInt_intRepr (v : Int) (hlo : -(2 ^ 63) ≤ v) (hhi : v ≤ 2 ^ 63 - 1) :
    parseGoInt (intRepr v) = .ok v := by
  by_cases hv : v < 0
  · have hstrip : stripSign (intRepr v).data = (true, natReprL v.natAbs) := by
      show stripSign (intReprL v) = _
      unfold intReprL
      rw [if_pos hv]
      exact stripSign_neg _
    have habs : ((v.natAbs : Nat) : Int) = -v := by omega
    simp only [parseGoInt, hstrip, parseDigitsL_natReprL]
    simp only [natReprL_ne_nil v.natAbs, if_false, if_true, habs, neg_neg]
    rw [if_neg (by omega)]
  · have hstrip : stripSign (intRepr v).data = (false, natReprL v.natAbs) := by
      show stripSign (intReprL v) = _
      unfold intReprL
      rw [if_neg hv]
      obtain ⟨c, rest, heq, hdig⟩ := natReprL_head_digit v.natAbs
      rw [heq, stripSign_digit c rest hdig, ← heq]
    have habs : ((v.natAbs : Nat) : Int) = v := by omega
    simp only [parseGoInt, hstrip, parseDigitsL_natReprL]
    simp only [natReprL_ne_nil v.natAbs, if_false, Bool.false_eq_true, habs]
    rw [if_neg (by omega)]

/-! ## Floating point: exact-rational model

A Go `float64` value is represented by the exact rational it denotes.
`ParseFloat` is modelled on the plain decimal forms (the special literals
`Inf`/`NaN` and hexadecimal floats are outside the model), producing the
exact rational instead of the nearest binary float; no proved claim
depends on the binary rounding step. -/

/-- Largest finite `float64`, exactly. -/
def maxFloat64 : ℚ := ((2 ^ 53 - 1 : Nat) : ℚ) * 2 ^ 971

/-- Largest finite `float32`, exactly. -/
def maxFloat32 : ℚ := ((2 ^ 24 - 1 : Nat) : ℚ) * 2 ^ 104

/-- `10^z` with a signed exponent. -/
def ratPow10 (z : Int) : ℚ :=
  if 0 ≤ z then ((10 : ℚ) ^ z.toNat) else 1 / ((10 : ℚ) ^ (-z).toNat)

/-- Exact value of a decimal literal `[sign] digits [. digits] [e [sign] digits]`;
`none` when the form is invalid. -/
def parseDecCore (cs : List Char) : Option ℚ :=
  let sg := stripSign cs
  let p := sg.2
  let ip := p.takeWhile isDigit
  let r1 := p.dropWhile isDigit
  let frac : List Char × List Char :=
    match r1 with
    | '.' :: r => (r.takeWhile isDigit, r.dropWhile isDigit)
    | _ => ([], r1)
  let fp := frac.1
  let r2 := frac.2
  if ip = [] ∧ fp = [] then none
  else
    let m : Nat := digitsVal (ip.filterMap digitVal ++ fp.filterMap digitVal)
    let expPart : Option Int :=
      match r2 with
      | [] => some 0
      | e :: r =>
        if e = 'e' ∨ e = 'E' then
          let es := stripSign r
          if es.2 ≠ [] ∧ es.2.all isDigit then
            let n : Nat := digitsVal (es.2.filterMap digitVal)
            some (if es.1 then -(n : Int) else (n : Int))
          else none
        else none
    match expPart with
    | none => none
    | some e =>
      let q : ℚ := (m : ℚ) * ratPow10 (e - fp.length)
      some (if sg.1 then -q else q)

/-- `strconv.ParseFloat(s, 64)` on plain decimal forms. -/
def parseGoFloat (s : String) : Except String ℚ :=
  match parseDecCore s.data with
  | none => .error (syntaxMsg "ParseFloat" s)
  | some q => if |q| > maxFloat64 then .error (rangeMsg "ParseFloat" s) else .ok q

/-- Strip one balanced pair of surrounding parentheses, as Go's
`ParseComplex` permits. -/
def stripParens (cs : List Char) : List Char :=
  match cs with
  | '(' :: rest =>
    if rest ≠ [] ∧ rest.getLast? = some ')' then rest.dropLast else cs
  | _ => cs

/-- Split `real±imag` at the last `+`/`-` that neither starts the string nor
follows an exponent marker. -/
def lastSignSplit (cs : List Char) : Option (List Char × List Char) :=
  let good : Nat → Bool := fun j =>
    decide (1 ≤ j) &&
      (decide (cs.getD j ' ' = '+') || decide (cs.getD j ' ' = '-')) &&
      !(decide (cs.getD (j - 1) ' ' = 'e') || decide (cs.getD (j - 1) ' ' = 'E'))
  match ((List.range cs.length).filter good).getLast? with
  | some j => some (cs.take j, cs.drop j)
  | none => none

/-- `strconv.ParseComplex(s, 128)` on the forms `N`, `Ni`, `N±Mi` (each
component a plain decimal literal), with optional surrounding parentheses. -/
def parseGoComplex (s : String) : Except String (ℚ × ℚ) :=
  let cs := stripParens s.data
  let comp : Option (ℚ × ℚ) :=
    if cs.getLast? = some 'i' then
      let body := cs.dropLast
      match lastSignSplit body with
      | some (reCs, imCs) =>
        match parseDecCore reCs, parseDecCore imCs with
        | some a, some b => some (a, b)
        | _, _ => none
      | none =>
        match parseDecCore body with
        | some b => some (0, b)
        | none => none
    else
      match parseDecCore cs with
      | some a => some (a, 0)
      | none => none
  match comp with
  | none => .error (syntaxMsg "ParseComplex" s)
  | some ab =>
    if |ab.1| > maxFloat64 ∨ |ab.2| > maxFloat64 then
      .error (rangeMsg "ParseComplex" s)
    else .ok ab

/-! ## fmt: the `%f` and `%e` formatters on exact rationals

Go's fixed-precision formatting prints the correctly rounded decimal of the
exact binary value, resolving ties to an even last digit; on the exact
rational these are the functions below. -/

/-- Round `a / b` to the nearest integer, ties to even. -/
def rdivEven (a b : Nat) : Nat :=
  let q := a / b
  let r := a % b
  if 2 * r < b then q
  else if 2 * r > b then q + 1
  else if q % 2 = 0 then q else q + 1

/-- Left-pad with `'0'` to `k` characters. -/
def padZeros (k : Nat) (cs : List Char) : List Char :=
  List.replicate (k - cs.length) '0' ++ cs

/-- Digits of a six-fraction-digit fixed-point rendering: sign, integer
part, point, six fraction digits; `m` is the value scaled by `10^6` and
already rounded. -/
def fmtFixed (neg : Bool) (m : Nat) : List Char :=
  (if neg then ['-'] else [])
    ++ natReprL (m / 1000000) ++ '.' :: padZeros 6 (natReprL (m % 1000000))

/-- `%f`: fixed-point decimal, six digits after the point. -/
def fmtFL (q : ℚ) : List Char :=
  fmtFixed (decide (q < 0)) (rdivEven (q.num.natAbs * 1000000) q.den)

def fmtF (q : ℚ) : String := String.mk (fmtFL q)

/-- Largest `e` with `10 ^ e ≤ q`, for `q > 0`. -/
def floorLog10 (q : ℚ) : Int :=
  if 1 ≤ q then ((natDigits (q.num.toNat / q.den)).length - 1 : Nat)
  else
    let a := q.num.natAbs
    let b := q.den
    match ((List.range ((natDigits b).length + 1)).find?
        (fun k => decide (b ≤ a * 10 ^ (k + 1)))) with
    | some k => -((k + 1 : Nat) : Int)
    | none => -((((natDigits b).length + 2 : Nat)) : Int)

/-- Digits of a six-fraction-digit scientific rendering: the fixed-point
digits of the rounded mantissa (in `[10^6, 10^7)`, so one integer digit)
followed by the signed, at-least-two-digit exponent. -/
def fmtSci (neg : Bool) (m : Nat) (ex : Int) : List Char :=
  fmtFixed neg m ++ 'e' :: (if ex < 0 then '-' else '+') :: padZeros 2 (natReprL ex.natAbs)

/-- `%e`: scientific notation `d.dddddde±XX` with six fraction digits and an
exponent of at least two digits. -/
def fmtEL (q : ℚ) : List Char :=
  if q = 0 then ("0.000000e+00" : String).data
  else
    let e := floorLog10 |q|
    let k : Int := 6 - e
    let m0 := rdivEven (q.num.natAbs * 10 ^ k.toNat) (q.den * 10 ^ (-k).toNat)
    if m0 = 10 ^ 7 then fmtSci (decide (q < 0)) (10 ^ 6) (e + 1)
    else fmtSci (decide (q < 0)) m0 e

def fmtE (q : ℚ) : String := String.mk (fmtEL q)

/-- `%e` on a complex value: `fmt` prints `(<real>+<imag>i)` with both
components under the elementary verb and a forced sign on the imaginary
component. -/
def fmtComplexL (re im : ℚ) : List Char :=
  '(' :: (fmtEL re ++ (if im < 0 then fmtEL im else '+' :: fmtEL im) ++ ['i', ')'])

def fmtComplex (re im : ℚ) : String := String.mk (fmtComplexL re im)

/-! ## Data model: Go kinds, values, struct fields

A struct field carries its Go field name, its `form` tag (empty string when
the tag is absent), its `CanSet` flag (false for unexported fields) and a
typed value; the value determines the field's reflected kind, with integer
widths carried on the value.  `unsupported` stands for any kind outside the
switch in `parseFormValue`/`marshalFormValue` (maps, nested structs, ...),
carrying the Go type string and the `%v` rendering of the value. -/

inductive IntWidth
  | w8 | w16 | w32 | w64
  | wNative
deriving DecidableEq

/-- Bit width; Go's plain `int`/`uint` are 64-bit on the platforms the
package targets. -/
def IntWidth.bits : IntWidth → Nat
  | .w8 => 8 | .w16 => 16 | .w32 => 32 | .w64 => 64 | .wNative => 64

def intName : IntWidth → String
  | .w8 => "int8" | .w16 => "int16" | .w32 => "int32" | .w64 => "int64"
  | .wNative => "int"

def uintName : IntWidth → String
  | .w8 => "uint8" | .w16 => "uint16" | .w32 => "uint32" | .w64 => "uint64"
  | .wNative => "uint"

inductive FWidth
  | f32 | f64
deriving DecidableEq

def floatName : FWidth → String
  | .f32 => "float32" | .f64 => "float64"

def maxFloatOf : FWidth → ℚ
  | .f32 => maxFloat32 | .f64 => maxFloat64

inductive CWidth
  | c64 | c128
deriving DecidableEq

def cplxName : CWidth → String
  | .c64 => "complex64" | .c128 => "complex128"

/-- Bound on each component: `complex64` components are `float32`. -/
def cplxCompMax : CWidth → ℚ
  | .c64 => maxFloat32 | .c128 => maxFloat64

inductive ScalarVal
  | str (s : String)
  | bool (b : Bool)
  | int (w : IntWidth) (v : Int)
  | uint (w : IntWidth) (n : Nat)
  | float (w : FWidth) (q : ℚ)
  | cplx (w : CWidth) (re im : ℚ)
  | unsupported (typeName valueRepr : String)
deriving DecidableEq

inductive ScalarKind
  | str
  | bool
  | int (w : IntWidth)
  | uint (w : IntWidth)
  | float (w : FWidth)
  | cplx (w : CWidth)
  | unsupported (typeName : String)
deriving DecidableEq

def kindOf : ScalarVal → ScalarKind
  | .str _ => .str
  | .bool _ => .bool
  | .int w _ => .int w
  | .uint w _ => .uint w
  | .float w _ => .float w
  | .cplx w _ _ => .cplx w
  | .unsupported t _ => .unsupported t

/-- The Go zero value of a kind (what `reflect.MakeSlice` / `reflect.New`
produce for elements before they are assigned). -/
def zeroScalar : ScalarKind → ScalarVal
  | .str => .str ""
  | .bool => .bool false
  | .int w => .int w 0
  | .uint w => .uint w 0
  | .float w => .float w 0
  | .cplx w => .cplx w 0 0
  | .unsupported t => .unsupported t ""

def scalarTypeName : ScalarKind → String
  | .str => "string"
  | .bool => "bool"
  | .int w => intName w
  | .uint w => uintName w
  | .float w => floatName w
  | .cplx w => cplxName w
  | .unsupported t => t

/-- `reflect.Value.OverflowInt` for the width. -/
def overflowInt (w : IntWidth) (v : Int) : Bool :=
  decide (v < -(2 ^ (w.bits - 1)) ∨ v ≥ 2 ^ (w.bits - 1))

/-- `reflect.Value.OverflowUint` for the width. -/
def overflowUint (w : IntWidth) (n : Nat) : Bool :=
  decide (n ≥ 2 ^ w.bits)

/-- `reflect.Value.OverflowFloat` for the width (conversion to the width
would overflow). -/
def overflowFloat (w : FWidth) (q : ℚ) : Bool :=
  decide (|q| > maxFloatOf w)

/-- `reflect.Value.OverflowComplex`: either component overflows. -/
def overflowCplx (w : CWidth) (re im : ℚ) : Bool :=
  decide (|re| > cplxCompMax w ∨ |im| > cplxCompMax w)

inductive FieldVal
  | scalar (v : ScalarVal)
  | slice (k : ScalarKind) (elems : List ScalarVal)
  | arr (k : ScalarKind) (elems : List ScalarVal)
deriving DecidableEq

/-- The Go type string of a field, as `reflect.Type.String` prints it; the
declared size of a fixed-size array is the length of its element list. -/
def fieldTypeName : FieldVal → String
  | .scalar v => scalarTypeName (kindOf v)
  | .slice k _ => "[]" ++ scalarTypeName k
  | .arr k es => "[" ++ natRepr es.length ++ "]" ++ scalarTypeName k

structure Field where
  name : String
  tag : String
  settable : Bool
  val : FieldVal
deriving DecidableEq

structure GoStruct where
  name : String
  fields : List Field
deriving DecidableEq

/-! ## url.Values -/

/-- `url.Values`: keys mapping to ordered value lists.  Built by `formAdd`
from empty, keys are unique and appear in first-insertion order. -/
abbrev Form := List (String × List String)

/-- Map lookup, `[]` for an absent key (Go's `r.Form[tag]`). -/
def formLookup : Form → String → List String
  | [], _ => []
  | (k, vs) :: rest, key => if k = key then vs else formLookup rest key

/-- `url.Values.Add`: append `v` under `key`. -/
def formAdd : Form → String → String → Form
  | [], key, v => [(key, [v])]
  | (k, vs) :: rest, key, v =>
    if k = key then (k, vs ++ [v]) :: rest else (k, vs) :: formAdd rest key v

/-! ## Errors (form.go lines 82–136) -/

/-- `UnmarshalTypeError` before the caller fills in struct/field context
(`parseFormValue` and `parseFormValues` produce these). -/
structure UErr where
  value : String
  typeName : String
  errMsg : String
deriving DecidableEq

/-- `UnmarshalTypeError` with all context. -/
structure UnmarshalTypeError where
  value : String
  typeName : String
  structName : String
  fieldName : String
  errMsg : String
deriving DecidableEq

/-- `UnmarshalTypeError.Error()`. -/
def UnmarshalTypeError.message (e : UnmarshalTypeError) : String :=
  "form: cannot unmarshal " ++ e.value ++ " into Go struct field "
    ++ e.structName ++ "." ++ e.fieldName ++ " of type " ++ e.typeName
    ++ ": " ++ e.errMsg

/-- `MarshalTypeError` before context annotation. -/
structure MErr where
  typeName : String
  valueRepr : String
deriving DecidableEq

/-- `MarshalTypeError` with all context. -/
structure MarshalTypeError where
  typeName : String
  valueRepr : String
  structName : String
  fieldName : String
deriving DecidableEq

/-- `MarshalTypeError.Error()`. -/
def MarshalTypeError.message (e : MarshalTypeError) : String :=
  "form: cannot marshal " ++ e.valueRepr ++ " (" ++ e.typeName
    ++ ") of Go struct field " ++ e.structName ++ "." ++ e.fieldName
    ++ " into form data"

/-- State of an `InvalidUnmarshalError`/`InvalidMarshalError`: the
`reflect.Type` of the argument (`none` when the argument was nil) and
whether that type's kind is pointer. -/
structure InvalidArgError where
  typeName : Option String
  ptrKind : Bool
deriving DecidableEq

/-- `InvalidUnmarshalError.Error()`. -/
def unmarshalErrorMessage (e : InvalidArgError) : String :=
  match e.typeName with
  | none => "form: Unmarshal(nil)"
  | some t =>
    if e.ptrKind = false then "form: Unmarshal(non-pointer " ++ t ++ ")"
    else "form: Unmarshal(nil " ++ t ++ ")"

/-- `InvalidMarshalError.Error()`. -/
def marshalErrorMessage (e : InvalidArgError) : String :=
  match e.typeName with
  | none => "form: Marshal(nil)"
  | some t =>
    if e.ptrKind = false then "form: Marshal(non-pointer " ++ t ++ ")"
    else "form: Marshal(nil " ++ t ++ ")"

/-! ## Decoding (form.go lines 138–289) -/

/-- `parseFormValue`: the per-kind switch converting one raw string into the
field (or element) `f`, dispatching on `f`'s reflected kind. -/
def parseFormValue (f : ScalarVal) (value : String) : Except UErr ScalarVal :=
  match f with
  | .str _ => .ok (.str value)
  | .bool _ =>
    match parseGoBool value with
    | .error m => .error ⟨value, "bool", m⟩
    | .ok b => .ok (.bool b)
  | .int w _ =>
    match parseGoInt value with
    | .error m => .error ⟨value, intName w, m⟩
    | .ok v =>
      if overflowInt w v then
        .error ⟨value, intName w, value ++ " overflows " ++ intName w ++ " value"⟩
      else .ok (.int w v)
  | .uint w _ =>
    match parseGoUint value with
    | .error m => .error ⟨value, uintName w, m⟩
    | .ok n =>
      if overflowUint w n then
        .error ⟨value, uintName w, value ++ " overflows " ++ uintName w ++ " value"⟩
      else .ok (.uint w n)
  | .float w _ =>
    match parseGoFloat value with
    | .error m => .error ⟨value, floatName w, m⟩
    | .ok q =>
      if overflowFloat w q then
        .error ⟨value, floatName w, value ++ " overflows " ++ floatName w ++ " value"⟩
      else .ok (.float w q)
  | .cplx w _ _ =>
    match parseGoComplex value with
    | .error m => .error ⟨value, cplxName w, m⟩
    | .ok ab =>
      if overflowCplx w ab.1 ab.2 then
        .error ⟨value, cplxName w, value ++ " overflows " ++ cplxName w ++ " value"⟩
      else .ok (.cplx w ab.1 ab.2)
  | .unsupported t _ =>
    .error ⟨value, t, "type " ++ t ++ " cannot be unmarshalled from form"⟩

/-- The `"[" + strings.Join(values, ", ") + "]"` aggregation used for
sequence errors. -/
def bracketJoin (values : List String) : String :=
  "[" ++ String.intercalate ", " values ++ "]"

/-- The element loops in `parseFormValues`: convert each raw value into a
fresh zero element of kind `k`, stopping at the first failure. -/
def parseElems (k : ScalarKind) : List String → Except UErr (List ScalarVal)
  | [] => .ok []
  | v :: rest =>
    match parseFormValue (zeroScalar k) v with
    | .error e => .error e
    | .ok w =>
      match parseElems k rest with
      | .error e => .error e
      | .ok ws => .ok (w :: ws)

/-- `parseFormValues`: decode the values supplied for one field.  Empty
value list or a non-settable field is a silent skip; a slice or array field
is rebuilt in fresh storage and assigned only when every element converts;
a scalar field requires exactly one value. -/
def parseFormValues (f : Field) (values : List String) : Except UErr Field :=
  if values = [] ∨ f.settable = false then .ok f
  else
    match f.val with
    | .slice k _ =>
      match parseElems k values with
      | .error e =>
        .error { e with value := bracketJoin values, typeName := "[]" ++ scalarTypeName k }
      | .ok ws => .ok { f with val := .slice k ws }
    | .arr k es =>
      if es.length ≠ values.length then
        .error ⟨bracketJoin values, "[" ++ natRepr es.length ++ "]" ++ scalarTypeName k,
          "cannot use [" ++ natRepr values.length ++ "]" ++ scalarTypeName k
            ++ " as [" ++ natRepr es.length ++ "]" ++ scalarTypeName k
            ++ " value in struct"⟩
      else
        match parseElems k values with
        | .error e =>
          .error { e with
            value := bracketJoin values
            typeName := "[" ++ natRepr es.length ++ "]" ++ scalarTypeName k }
        | .ok ws => .ok { f with val := .arr k ws }
    | .scalar v =>
      match values with
      | [x] =>
        match parseFormValue v x with
        | .error e => .error e
        | .ok w => .ok { f with val := .scalar w }
      | _ =>
        .error ⟨bracketJoin values, scalarTypeName (kindOf v),
          "cannot unmarshal more than one value for non-slice field"⟩

/-- The field loop of `Unmarshal`: process fields in declared order, looking
each field's tag up in the form; the first failure stops the walk, the
failing and later fields keeping their previous values (the error is
annotated with struct and field name as in form.go lines 38–41). -/
def unmarshalFields (sname : String) (form : Form) :
    List Field → List Field × Option UnmarshalTypeError
  | [] => ([], none)
  | f :: fs =>
    match parseFormValues f (formLookup form f.tag) with
    | .error e => (f :: fs, some ⟨e.value, e.typeName, sname, f.name, e.errMsg⟩)
    | .ok g =>
      let r := unmarshalFields sname form fs
      (g :: r.1, r.2)

/-- Shape of the argument `i` passed to `Unmarshal`/`Marshal`, as the two
`reflect` checks see it: nil interface, non-pointer, nil pointer, non-nil
pointer to a non-struct, or non-nil pointer to a struct. -/
inductive GoArg
  | nilArg
  | nonPtr (typeName : String)
  | nilPtr (typeName : String)
  | ptrNonStruct (typeName : String)
  | ptrStruct (s : GoStruct)
deriving DecidableEq

inductive UnmarshalError
  | invalid (e : InvalidArgError)
  | typeErr (e : UnmarshalTypeError)
deriving DecidableEq

/-- `Unmarshal` (form.go lines 12–46), over an already-parsed form: a nil
argument has no `reflect.Type`; any other argument that is not a non-nil
pointer carries its type with its kind; a pointer to a non-struct passes
the first check and fails the struct check, its type still of pointer
kind.  The `r.ParseForm` call and its pass-through error live outside the
model, which receives the parsed mapping. -/
def Unmarshal (form : Form) (arg : GoArg) : Except UnmarshalError GoStruct :=
  match arg with
  | .nilArg => .error (.invalid ⟨none, false⟩)
  | .nonPtr t => .error (.invalid ⟨some t, false⟩)
  | .nilPtr t => .error (.invalid ⟨some t, true⟩)
  | .ptrNonStruct t => .error (.invalid ⟨some t, true⟩)
  | .ptrStruct s =>
    match unmarshalFields s.name form s.fields with
    | (_, some e) => .error (.typeErr e)
    | (fs, none) => .ok { s with fields := fs }

/-! ## Encoding (form.go lines 48–80 and 291–332) -/

/-- `marshalFormValue`: format one scalar and append it under the tag. -/
def marshalFormValue (tag : String) (f : ScalarVal) (form : Form) : Except MErr Form :=
  match f with
  | .str s => .ok (formAdd form tag s)
  | .bool b => .ok (formAdd form tag (if b then "true" else "false"))
  | .int _ v => .ok (formAdd form tag (intRepr v))
  | .uint _ n => .ok (formAdd form tag (natRepr n))
  | .float _ q => .ok (formAdd form tag (fmtF q))
  | .cplx _ re im => .ok (formAdd form tag (fmtComplex re im))
  | .unsupported t r => .error ⟨t, r⟩

/-- The element loop of `marshalFormValues`: append one formatted string per
element, in order. -/
def marshalElems (tag : String) (form : Form) : List ScalarVal → Except MErr Form
  | [] => .ok form
  | v :: rest =>
    match marshalFormValue tag v form with
    | .error e => .error e
    | .ok form2 => marshalElems tag form2 rest

/-- `marshalFormValues`: sequences iterate their elements (an element
failure is re-annotated with the sequence type, as form.go lines 296–297;
the field-name slot it also writes there is overwritten by `Marshal`,
which is what the model keeps). -/
def marshalFormValues (tag : String) (fv : FieldVal) (form : Form) : Except MErr Form :=
  match fv with
  | .slice k vs =>
    match marshalElems tag form vs with
    | .error e => .error { e with typeName := "[]" ++ scalarTypeName k }
    | .ok form2 => .ok form2
  | .arr k vs =>
    match marshalElems tag form vs with
    | .error e => .error { e with typeName := "[" ++ natRepr vs.length ++ "]" ++ scalarTypeName k }
    | .ok form2 => .ok form2
  | .scalar v => marshalFormValue tag v form

/-- The field loop of `Marshal`: fields with an empty tag are skipped; the
first failing field aborts with the annotated error. -/
def marshalFields (sname : String) (form : Form) : List Field → Except MarshalTypeError Form
  | [] => .ok form
  | f :: fs =>
    if f.tag = "" then marshalFields sname form fs
    else
      match marshalFormValues f.tag f.val form with
      | .error e => .error ⟨e.typeName, e.valueRepr, sname, f.name⟩
      | .ok form2 => marshalFields sname form2 fs

/-- The part of an `*http.Request` that `Marshal` touches. -/
structure Request where
  rawQuery : String
deriving DecidableEq

inductive MarshalError
  | invalid (e : InvalidArgError)
  | typeErr (e : MarshalTypeError)
deriving DecidableEq

/-- Uppercase hexadecimal digit. -/
def hexDigit (n : Nat) : Char :=
  if n < 10 then digitChar n else Char.ofNat (55 + n)

/-- UTF-8 encoding of one character, by scalar-value arithmetic. -/
def utf8Bytes (c : Char) : List Nat :=
  let n := c.toNat
  if n < 128 then [n]
  else if n < 2048 then [192 + n / 64, 128 + n % 64]
  else if n < 65536 then [224 + n / 4096, 128 + (n / 64) % 64, 128 + n % 64]
  else [240 + n / 262144, 128 + (n / 4096) % 64, 128 + (n / 64) % 64, 128 + n % 64]

/-- Characters `url.QueryEscape` leaves alone. -/
def isUnreserved (c : Char) : Bool :=
  isDigit c || decide (65 ≤ c.toNat ∧ c.toNat ≤ 90)
    || decide (97 ≤ c.toNat ∧ c.toNat ≤ 122)
    || decide (c = '-') || decide (c = '_') || decide (c = '.') || decide (c = '~')

/-- `url.QueryEscape`: space becomes `+`, unreserved characters pass, every
other byte of the UTF-8 encoding becomes `%XX`. -/
def queryEscapeL (cs : List Char) : List Char :=
  cs.flatMap fun c =>
    if c = ' ' then ['+']
    else if isUnreserved c then [c]
    else (utf8Bytes c).flatMap fun b => ['%', hexDigit (b / 16), hexDigit (b % 16)]

def queryEscape (s : String) : String := String.mk (queryEscapeL s.data)

/-- Lexicographic order on character lists by scalar value; on UTF-8
strings this coincides with Go's byte-wise string order. -/
def charListLe : List Char → List Char → Bool
  | [], _ => true
  | _ :: _, [] => false
  | a :: as, b :: bs =>
    if a.toNat < b.toNat then true
    else if b.toNat < a.toNat then false
    else charListLe as bs

def strLe (a b : String) : Bool := charListLe a.data b.data

/-- Insertion into a key-sorted association list. -/
def insertEntry (p : String × List String) : Form → Form
  | [] => [p]
  | q :: rest => if strLe p.1 q.1 then p :: q :: rest else q :: insertEntry p rest

/-- Sort entries by key, as `url.Values.Encode` sorts its keys. -/
def sortForm : Form → Form
  | [] => []
  | p :: rest => insertEntry p (sortForm rest)

/-- `url.Values.Encode`: keys in sorted order, one `k=v` pair per value,
joined by `&`, both sides query-escaped. -/
def encodeForm (form : Form) : String :=
  String.intercalate "&"
    ((sortForm form).flatMap fun p => p.2.map fun v => queryEscape p.1 ++ "=" ++ queryEscape v)

/-- `Marshal` (form.go lines 48–80): argument validation as in `Unmarshal`;
on success — and only then — the request's raw query is overwritten with
the encoding of the accumulated form. -/
def Marshal (req : Request) (arg : GoArg) : Request × Option MarshalError :=
  match arg with
  | .nilArg => (req, some (.invalid ⟨none, false⟩))
  | .nonPtr t => (req, some (.invalid ⟨some t, false⟩))
  | .nilPtr t => (req, some (.invalid ⟨some t, true⟩))
  | .ptrNonStruct t => (req, some (.invalid ⟨some t, true⟩))
  | .ptrStruct s =>
    match marshalFields s.name [] s.fields with
    | .error e => (req, some (.typeErr e))
    | .ok form => ({ req with rawQuery := encodeForm form }, none)

/-! ## Derived facts about encoding -/

/-- The string `marshalFormValue` appends for a supported scalar. -/
def fmtScalar : ScalarVal → String
  | .str s => s
  | .bool b => if b then "true" else "false"
  | .int _ v => intRepr v
  | .uint _ n => natRepr n
  | .float _ q => fmtF q
  | .cplx _ re im => fmtComplex re im
  | .unsupported _ _ => ""

def supportedScalar : ScalarVal → Bool
  | .unsupported _ _ => false
  | _ => true

def supportedField : FieldVal → Bool
  | .scalar v => supportedScalar v
  | .slice _ vs => vs.all supportedScalar
  | .arr _ vs => vs.all supportedScalar

/-- The strings a field contributes under its tag, in order. -/
def fieldStrings : FieldVal → List String
  | .scalar v => [fmtScalar v]
  | .slice _ vs => vs.map fmtScalar
  | .arr _ vs => vs.map fmtScalar

/-- Append a batch of values under one key. -/
def addAll (form : Form) (tag : String) : List String → Form
  | [] => form
  | s :: ss => addAll (formAdd form tag s) tag ss

theorem marshalFormValue_supported (tag : String) (v : ScalarVal) (form : Form)
    (h : supportedScalar v = true) :
    marshalFormValue tag v form = .ok (formAdd form tag (fmtScalar v)) := by
  cases v <;> simp_all [marshalFormValue, fmtScalar, supportedScalar]

theorem marshalElems_supported (tag : String) (vs : List ScalarVal) (form : Form)
    (h : vs.all supportedScalar = true) :
    marshalElems tag form vs = .ok (addAll form tag (vs.map fmtScalar)) := by
  induction vs generalizing form with
  | nil => rfl
  | cons v vs ih =>
    rw [List.all_cons, Bool.and_eq_true] at h
    simp only [marshalElems, marshalFormValue_supported tag v form h.1, List.map_cons]
    exact ih _ h.2

theorem marshalFormValues_supported (tag : String) (fv : FieldVal) (form : Form)
    (h : supportedField fv = true) :
    marshalFormValues tag fv form = .ok (addAll form tag (fieldStrings fv)) := by
  cases fv with
  | scalar v =>
    simp only [marshalFormValues, fieldStrings, addAll]
    exact marshalFormValue_supported tag v form h
  | slice k vs =>
    simp only [marshalFormValues, fieldStrings]
    rw [marshalElems_supported tag vs form h]
  | arr k vs =>
    simp only [marshalFormValues, fieldStrings]
    rw [marshalElems_supported tag vs form h]

theorem formLookup_formAdd (form : Form) (k v key : String) :
    formLookup (formAdd form k v) key =
      if k = key then formLookup form key ++ [v] else formLookup form key := by
  induction form with
  | nil =>
    by_cases hk : k = key <;> simp [formAdd, formLookup, hk]
  | cons p rest ih =>
    obtain ⟨pk, pvs⟩ := p
    by_cases h1 : pk = k
    · subst h1
      by_cases h2 : pk = key <;> simp [formAdd, formLookup, h2]
    · by_cases h2 : pk = key
      · subst h2
        simp [formAdd, formLookup, h1, Ne.symm h1]
      · simp [formAdd, formLookup, h1, h2, ih]

theorem formLookup_addAll (form : Form) (tag : String) (ss : List String) (key : String) :
    formLookup (addAll form tag ss) key =
      if tag = key then formLookup form key ++ ss else formLookup form key := by
  induction ss generalizing form with
  | nil => by_cases h : tag = key <;> simp [addAll, h]
  | cons s ss ih =>
    simp only [addAll]
    rw [ih, formLookup_formAdd]
    by_cases h : tag = key <;> simp [h]

/-- All strings the listed fields contribute under `key` (participating
fields only). -/
def taggedStrings (fields : List Field) (key : String) : List String :=
  (fields.filter fun f => decide (f.tag = key)).flatMap fun f => fieldStrings f.val

theorem marshalFields_supported (sname : String) (fields : List Field) (form : Form)
    (hsup : ∀ f ∈ fields, supportedField f.val = true) :
    ∃ F, marshalFields sname form fields = .ok F ∧
      ∀ key, key ≠ "" →
        formLookup F key = formLookup form key ++ taggedStrings fields key := by
  induction fields generalizing form with
  | nil => exact ⟨form, rfl, fun key _ => by simp [taggedStrings]⟩
  | cons f fs ih =>
    have hf : supportedField f.val = true := hsup f (List.mem_cons_self f fs)
    have hfs : ∀ g ∈ fs, supportedField g.val = true :=
      fun g hg => hsup g (List.mem_cons_of_mem f hg)
    by_cases htag : f.tag = ""
    · obtain ⟨F, hF, hlook⟩ := ih form hfs
      refine ⟨F, by simp [marshalFields, htag, hF], fun key hkey => ?_⟩
      rw [hlook key hkey]
      have hne : ¬(f.tag = key) := fun hc => hkey (by rw [← hc, htag])
      simp [taggedStrings, List.filter_cons, hne]
    · obtain ⟨F, hF, hlook⟩ := ih (addAll form f.tag (fieldStrings f.val)) hfs
      refine ⟨F, ?_, fun key hkey => ?_⟩
      · simp only [marshalFields, htag, if_false]
        rw [marshalFormValues_supported f.tag f.val form hf]
        exact hF
      · rw [hlook key hkey, formLookup_addAll]
        by_cases hk : f.tag = key
        · simp [taggedStrings, hk, List.append_assoc]
        · simp [taggedStrings, hk]

/-- With pairwise distinct tags, a member field's own tag collects exactly
its own strings. -/
theorem taggedStrings_of_nodup (fields : List Field)
    (hnd : (fields.map Field.tag).Nodup) (f : Field) (hf : f ∈ fields) :
    taggedStrings fields f.tag = fieldStrings f.val := by
  induction fields with
  | nil => exact absurd hf (List.not_mem_nil f)
  | cons g fs ih =>
    rw [List.map_cons, List.nodup_cons] at hnd
    rcases List.mem_cons.mp hf with heq | hmem
    · subst heq
      have hnone : ∀ h ∈ fs, ¬(h.tag = f.tag) := by
        intro h hh hc
        exact hnd.1 (hc ▸ List.mem_map_of_mem Field.tag hh)
      simp only [taggedStrings, List.filter_cons]
      rw [if_pos (by simp)]
      have hfilter : fs.filter (fun h => decide (h.tag = f.tag)) = [] := by
        rw [List.filter_eq_nil_iff]
        intro h hh
        simpa using hnone h hh
      simp [hfilter]
    · have hgt : ¬(g.tag = f.tag) := by
        intro hc
        exact hnd.1 (hc.symm ▸ List.mem_map_of_mem Field.tag hmem)
      simp only [taggedStrings, List.filter_cons]
      rw [if_neg (by simpa using hgt)]
      exact ih hnd.2 hmem

/-! ## Derived facts about decoding: the lossless kinds round-trip -/

/-- Scalar values of the kinds the round-trip property covers (string,
bool, signed and unsigned integers), with the value inside the width's
range. -/
def rtScalar : ScalarVal → Bool
  | .str _ => true
  | .bool _ => true
  | .int w v => decide (-(2 ^ (w.bits - 1)) ≤ v ∧ v < 2 ^ (w.bits - 1))
  | .uint w n => decide (n < 2 ^ w.bits)
  | .float _ _ => false
  | .cplx _ _ _ => false
  | .unsupported _ _ => false

def rtField : FieldVal → Bool
  | .scalar v => rtScalar v
  | .slice k vs => vs.all fun v => rtScalar v && decide (kindOf v = k)
  | .arr k vs => vs.all fun v => rtScalar v && decide (kindOf v = k)

/-- The zero value of a field: nil slice, zero-filled array of the declared
size, zero scalar.  This is the state of a freshly allocated decode
target. -/
def zeroFieldVal : FieldVal → FieldVal
  | .scalar v => .scalar (zeroScalar (kindOf v))
  | .slice k _ => .slice k []
  | .arr k es => .arr k (es.map fun _ => zeroScalar k)

/-- A fresh record of the same type: same names, tags and settability,
zero values. -/
def freshFields (fields : List Field) : List Field :=
  fields.map fun f => { f with val := zeroFieldVal f.val }

/-- Formatting then re-parsing a round-trip-kind scalar restores it. -/
theorem parse_fmt_scalar (v : ScalarVal) (h : rtScalar v = true) :
    parseFormValue (zeroScalar (kindOf v)) (fmtScalar v) = .ok v := by
  cases v with
  | str s => rfl
  | bool b => cases b <;> rfl
  | int w v0 =>
    simp only [rtScalar, decide_eq_true_eq] at h
    have hb : (2 : Int) ^ (w.bits - 1) ≤ 2 ^ 63 := by
      cases w <;> norm_num [IntWidth.bits]
    have hov : overflowInt w v0 = false := by
      simp only [overflowInt, decide_eq_false_iff_not]
      push_neg
      omega
    simp only [kindOf, zeroScalar, fmtScalar, parseFormValue]
    rw [parseGoInt_intRepr v0 (by omega) (by omega)]
    simp [hov]
  | uint w n =>
    simp only [rtScalar, decide_eq_true_eq] at h
    have hb : (2 : Nat) ^ w.bits ≤ 2 ^ 64 := by
      cases w <;> norm_num [IntWidth.bits]
    have hov : overflowUint w n = false := by
      simp only [overflowUint, decide_eq_false_iff_not]
      omega
    simp only [kindOf, zeroScalar, fmtScalar, parseFormValue]
    rw [parseGoUint_natRepr n (by omega)]
    simp [hov]
  | float w q => simp [rtScalar] at h
  | cplx w re im => simp [rtScalar] at h
  | unsupported t r => simp [rtScalar] at h

/-- Formatting then re-parsing a list of round-trip-kind elements restores
it. -/
theorem parseElems_fmt (k : ScalarKind) (vs : List ScalarVal)
    (h : (vs.all fun v => rtScalar v && decide (kindOf v = k)) = true) :
    parseElems k (vs.map fmtScalar) = .ok vs := by
  induction vs with
  | nil => rfl
  | cons v vs ih =>
    rw [List.all_cons, Bool.and_eq_true] at h
    obtain ⟨hv, hvs⟩ := h
    rw [Bool.and_eq_true, decide_eq_true_eq] at hv
    obtain ⟨hrt, hk⟩ := hv
    have ih2 := ih hvs
    rw [← hk] at ih2
    simp only [List.map_cons, parseElems, ← hk]
    rw [parse_fmt_scalar v hrt]
    simp [ih2]

/-- Decoding a freshly zeroed field from its own formatted strings restores
the original field. -/
theorem parseFormValues_roundtrip (f : Field) (hset : f.settable = true)
    (h : rtField f.val = true) :
    parseFormValues { f with val := zeroFieldVal f.val } (fieldStrings f.val) = .ok f := by
  obtain ⟨nm, tg, st, fv⟩ := f
  simp only at hset h ⊢
  subst hset
  cases fv with
  | scalar v =>
    simp only [rtField] at h
    simp [parseFormValues, fieldStrings, zeroFieldVal, parse_fmt_scalar v h]
  | slice k vs =>
    simp only [rtField] at h
    cases vs with
    | nil => simp [parseFormValues, fieldStrings, zeroFieldVal]
    | cons v vs =>
      simp only [parseFormValues, fieldStrings, zeroFieldVal]
      rw [if_neg (by simp)]
      rw [parseElems_fmt k (v :: vs) h]
  | arr k es =>
    simp only [rtField] at h
    cases es with
    | nil => simp [parseFormValues, fieldStrings, zeroFieldVal]
    | cons e es =>
      simp only [parseFormValues, fieldStrings, zeroFieldVal]
      rw [if_neg (by simp)]
      rw [if_neg (by simp)]
      rw [parseElems_fmt k (e :: es) h]

/-- Decoding a batch of fresh fields whose tags each look up exactly their
own formatted strings restores every field and reports no error. -/
theorem unmarshalFields_roundtrip (sname : String) (F : Form) (fields : List Field)
    (h : ∀ f ∈ fields, f.settable = true ∧ rtField f.val = true ∧
      formLookup F f.tag = fieldStrings f.val) :
    unmarshalFields sname F (freshFields fields) = (fields, none) := by
  induction fields with
  | nil => rfl
  | cons f fs ih =>
    obtain ⟨hset, hrt, hlook⟩ := h f (List.mem_cons_self f fs)
    have hfs : ∀ g ∈ fs, g.settable = true ∧ rtField g.val = true ∧
        formLookup F g.tag = fieldStrings g.val :=
      fun g hg => h g (List.mem_cons_of_mem f hg)
    have htag : ({ f with val := zeroFieldVal f.val } : Field).tag = f.tag := rfl
    simp only [freshFields, List.map_cons, unmarshalFields, htag, hlook]
    rw [parseFormValues_roundtrip f hset hrt]
    have ihr := ih hfs
    simp only [freshFields] at ihr
    simp [ihr]

theorem rt_supported (fv : FieldVal) (h : rtField fv = true) :
    supportedField fv = true := by
  cases fv with
  | scalar v => cases v <;> simp_all [rtField, rtScalar, supportedField, supportedScalar]
  | slice k vs =>
    simp only [rtField, supportedField, List.all_eq_true] at h ⊢
    intro v hv
    have hrt := h v hv
    cases v <;> simp_all [rtScalar, supportedScalar]
  | arr k vs =>
    simp only [rtField, supportedField, List.all_eq_true] at h ⊢
    intro v hv
    have hrt := h v hv
    cases v <;> simp_all [rtScalar, supportedScalar]

/-- Claim C1, amended (corrected): for a record whose fields all have
pairwise-distinct non-empty tags, are settable (exported), and hold string,
bool, or signed/unsigned integer kinds (scalars, slices or arrays thereof)
with in-range values, `Marshal`'s mapping decoded by `Unmarshal` into a
fresh zero record of the same type restores a record equal to the
original.  (Float and complex kinds are exempted by the claim itself as
lossy; they live outside this quantification.)  The original claim, which
does not require distinct tags or settability, is refuted by
`roundtrip_duplicate_tag_counterexample`. -/
theorem roundtrip_restores_record (s : GoStruct)
    (hnd : (s.fields.map Field.tag).Nodup)
    (hne : ∀ f ∈ s.fields, f.tag ≠ "")
    (hset : ∀ f ∈ s.fields, f.settable = true)
    (hrt : ∀ f ∈ s.fields, rtField f.val = true) :
    ∃ F, marshalFields s.name [] s.fields = .ok F ∧
      Unmarshal F (.ptrStruct { s with fields := freshFields s.fields }) = .ok s := by
  have hsup : ∀ f ∈ s.fields, supportedField f.val = true :=
    fun f hf => rt_supported _ (hrt f hf)
  obtain ⟨F, hF, hlook⟩ := marshalFields_supported s.name s.fields [] hsup
  refine ⟨F, hF, ?_⟩
  have hwalk : unmarshalFields s.name F (freshFields s.fields) = (s.fields, none) := by
    apply unmarshalFields_roundtrip
    intro f hf
    refine ⟨hset f hf, hrt f hf, ?_⟩
    rw [hlook f.tag (hne f hf)]
    rw [show formLookup [] f.tag = [] from rfl]
    rw [List.nil_append]
    exact taggedStrings_of_nodup s.fields hnd f hf
  simp [Unmarshal, hwalk]

/-- Two in-range `int` fields sharing the tag `x`: every hypothesis of the
original claim holds, yet both values accumulate under one key and decoding
fails with the scalar-arity error. -/
def dupTagStruct : GoStruct :=
  ⟨"s", [⟨"A", "x", true, .scalar (.int .wNative 1)⟩,
         ⟨"B", "x", true, .scalar (.int .wNative 2)⟩]⟩

/-- Claim C1, counterexample: the record `dupTagStruct` satisfies the
original claim's hypotheses (supported kinds, non-empty tags, in-range
values), yet `Marshal` piles both fields' values under the shared tag and
`Unmarshal` into a fresh record fails — the decoded record does not equal
the original. -/
theorem roundtrip_duplicate_tag_counterexample :
    (∀ f ∈ dupTagStruct.fields, f.tag ≠ "" ∧ f.settable = true ∧ rtField f.val = true)
    ∧ marshalFields dupTagStruct.name [] dupTagStruct.fields = .ok [("x", ["1", "2"])]
    ∧ Unmarshal [("x", ["1", "2"])]
        (.ptrStruct { dupTagStruct with fields := freshFields dupTagStruct.fields })
      = .error (.typeErr ⟨"[1, 2]", "int", "s", "A",
          "cannot unmarshal more than one value for non-slice field"⟩) := by
  exact ⟨by decide, rfl, rfl⟩

/-- A record with all four round-trip kinds, including a slice and a fixed
array. -/
def rtDemoStruct : GoStruct :=
  ⟨"s",
    [⟨"A", "a", true, .scalar (.str "hi there")⟩,
     ⟨"B", "b", true, .scalar (.int .w8 (-7))⟩,
     ⟨"C", "c", true, .slice (.uint .w16) [.uint .w16 5, .uint .w16 10]⟩,
     ⟨"D", "d", true, .arr .bool [.bool true, .bool false]⟩]⟩

/-- Claim C1, witness: the amended round trip at a concrete record. -/
theorem roundtrip_restores_record_witness :
    ∃ F, marshalFields rtDemoStruct.name [] rtDemoStruct.fields = .ok F ∧
      Unmarshal F (.ptrStruct { rtDemoStruct with fields := freshFields rtDemoStruct.fields })
        = .ok rtDemoStruct :=
  roundtrip_restores_record rtDemoStruct (by decide) (by decide) (by decide) (by decide)

/-! ## C2: untagged fields and the empty-string key -/

/-- A struct with one exported field carrying no `form` tag. -/
def untaggedStruct : GoStruct := ⟨"s", [⟨"Name", "", true, .scalar (.str "")⟩]⟩

/-- Claim C2 (code bug): `Marshal` skips untagged fields (`tag == ""` is
checked at form.go line 67), but the field loop of `Unmarshal` has no such
check: an untagged field looks up `r.Form[""]`, so a mapping containing the
empty-string key (produced e.g. by the query `=John`) is read into the
untagged field, which does not retain its prior value. -/
theorem untagged_field_read_from_empty_key :
    Marshal ⟨"old"⟩ (.ptrStruct untaggedStruct) = (⟨""⟩, none)
    ∧ Unmarshal [("", ["John"])] (.ptrStruct untaggedStruct)
        = .ok ⟨"s", [⟨"Name", "", true, .scalar (.str "John")⟩]⟩
    ∧ (⟨"s", [⟨"Name", "", true, .scalar (.str "John")⟩]⟩ : GoStruct) ≠ untaggedStruct := by
  exact ⟨rfl, rfl, by decide⟩

/-! ## C3: scalar arity -/

/-- Claim C3: for a settable scalar field, zero supplied values is a silent
no-op, exactly one convertible value is assigned, and two or more values
fail with the wrapped message "cannot unmarshal more than one value for
non-slice field". -/
theorem scalar_field_arity (f : Field) (v0 : ScalarVal)
    (hval : f.val = .scalar v0) (hset : f.settable = true) :
    parseFormValues f [] = .ok f
    ∧ (∀ s w, parseFormValue v0 s = .ok w →
        parseFormValues f [s] = .ok { f with val := .scalar w })
    ∧ (∀ values : List String, 2 ≤ values.length →
        parseFormValues f values
          = .error ⟨bracketJoin values, scalarTypeName (kindOf v0),
              "cannot unmarshal more than one value for non-slice field"⟩) := by
  refine ⟨by simp [parseFormValues], ?_, ?_⟩
  · intro s w hw
    simp only [parseFormValues]
    rw [if_neg (by simp [hset])]
    rw [hval]
    simp [hw]
  · intro values hlen
    rcases values with _ | ⟨x, _ | ⟨y, rest⟩⟩
    · simp at hlen
    · simp at hlen
    · simp only [parseFormValues]
      rw [if_neg (by simp [hset])]
      rw [hval]

def scalarDemoField : Field := ⟨"Val", "value", true, .scalar (.int .wNative 0)⟩

/-- Claim C3, witness: the three arity behaviours at a concrete `int`
field. -/
theorem scalar_field_arity_witness :
    parseFormValues scalarDemoField [] = .ok scalarDemoField
    ∧ parseFormValues scalarDemoField ["7"]
        = .ok { scalarDemoField with val := .scalar (.int .wNative 7) }
    ∧ parseFormValues scalarDemoField ["5", "6"]
        = .error ⟨"[5, 6]", "int",
            "cannot unmarshal more than one value for non-slice field"⟩ := by
  obtain ⟨h1, h2, h3⟩ := scalar_field_arity scalarDemoField (.int .wNative 0) rfl rfl
  exact ⟨h1, h2 "7" (.int .wNative 7) rfl, h3 ["5", "6"] (by decide)⟩

/-! ## C4: fixed-size arrays -/

/-- A successful element loop is positional: the i-th output element is the
conversion of the i-th raw value. -/
theorem parseElems_get (k : ScalarKind) (values : List String) (ws : List ScalarVal)
    (h : parseElems k values = .ok ws) :
    ws.length = values.length ∧
    ∀ i : Nat, (values[i]?).map (parseFormValue (zeroScalar k)) = (ws[i]?).map Except.ok := by
  induction values generalizing ws with
  | nil =>
    simp only [parseElems] at h
    cases h
    simp
  | cons v rest ih =>
    simp only [parseElems] at h
    rcases hp : parseFormValue (zeroScalar k) v with e | w <;> rw [hp] at h
    · exact absurd h (by simp)
    · rcases hr : parseElems k rest with e | ws' <;> rw [hr] at h
      · exact absurd h (by simp)
      · cases h
        obtain ⟨hlen, hget⟩ := ih ws' hr
        refine ⟨by simp [hlen], ?_⟩
        intro i
        cases i with
        | zero => simp [hp]
        | succ j => simpa using hget j

/-- Claim C4: a settable fixed-size array field of declared size `M`
decoded from `N ≥ 1` values fails when `N ≠ M` with the message
"cannot use [N]<elem> as [M]<elem> value in struct" naming both counts,
and from exactly `M` convertible values is assigned positionally. -/
theorem array_field_sizing (f : Field) (k : ScalarKind) (es : List ScalarVal)
    (hval : f.val = .arr k es) (hset : f.settable = true) :
    (∀ values : List String, 1 ≤ values.length → values.length ≠ es.length →
      parseFormValues f values
        = .error ⟨bracketJoin values,
            "[" ++ natRepr es.length ++ "]" ++ scalarTypeName k,
            "cannot use [" ++ natRepr values.length ++ "]" ++ scalarTypeName k
              ++ " as [" ++ natRepr es.length ++ "]" ++ scalarTypeName k
              ++ " value in struct"⟩)
    ∧ (∀ values ws, values.length = es.length → parseElems k values = .ok ws →
        parseFormValues f values = .ok { f with val := .arr k ws }
        ∧ ∀ i : Nat, (values[i]?).map (parseFormValue (zeroScalar k))
            = (ws[i]?).map Except.ok) := by
  obtain ⟨nm, tg, st, fv⟩ := f
  simp only at hval hset
  subst hval
  subst hset
  constructor
  · intro values h1 hne
    rcases values with _ | ⟨x, rest⟩
    · simp at h1
    · have hne2 : es.length ≠ (x :: rest).length := fun hc => hne hc.symm
      simp [parseFormValues, hne2]
      intro hc
      exact absurd hc (by simpa using hne2)
  · intro values ws hlen hws
    refine ⟨?_, (parseElems_get k values ws hws).2⟩
    rcases values with _ | ⟨x, rest⟩
    · simp only [parseElems] at hws
      cases hws
      have hes : es = [] := by simpa using hlen.symm
      subst hes
      simp [parseFormValues]
    · simp [parseFormValues, hws, hlen.symm]

def arrDemoField : Field :=
  ⟨"Val", "value", true, .arr (.int .wNative) [.int .wNative 0, .int .wNative 0]⟩

/-- Claim C4, witness: a `[2]int` field fed 3, 1, and exactly 2 values. -/
theorem array_field_sizing_witness :
    parseFormValues arrDemoField ["5", "6", "7"]
      = .error ⟨"[5, 6, 7]", "[2]int", "cannot use [3]int as [2]int value in struct"⟩
    ∧ parseFormValues arrDemoField ["5"]
      = .error ⟨"[5]", "[2]int", "cannot use [1]int as [2]int value in struct"⟩
    ∧ parseFormValues arrDemoField ["5", "6"]
      = .ok { arrDemoField with
          val := .arr (.int .wNative) [.int .wNative 5, .int .wNative 6] }
    ∧ ((["5", "6"] : List String)[0]?).map (parseFormValue (zeroScalar (.int .wNative)))
      = (([.int .wNative 5, .int .wNative 6] : List ScalarVal)[0]?).map Except.ok := by
  obtain ⟨h1, h2⟩ := array_field_sizing arrDemoField (.int .wNative)
    [.int .wNative 0, .int .wNative 0] rfl rfl
  obtain ⟨h3, h4⟩ := h2 ["5", "6"] [.int .wNative 5, .int .wNative 6] (by decide) rfl
  exact ⟨h1 ["5", "6", "7"] (by decide) (by decide),
    h1 ["5"] (by decide) (by decide), h3, h4 0⟩

/-! ## C5: the unsigned overflow boundary -/

/-- Claim C5: through the `parseFormValue` switch, decoding `"257"` into a
`uint8` field fails with the overflow message, `"255"` succeeds with value
255, and `"-1"` into an unsigned field of any width fails with the
underlying `strconv.ParseUint` syntax error (the sign is rejected by the
parse), not an overflow error. -/
theorem uint_overflow_boundary :
    parseFormValue (.uint .w8 0) "257"
      = .error ⟨"257", "uint8", "257 overflows uint8 value"⟩
    ∧ parseFormValue (.uint .w8 0) "255" = .ok (.uint .w8 255)
    ∧ parseFormValue (.uint .w8 0) "-1"
      = .error ⟨"-1", "uint8", "strconv.ParseUint: parsing \"-1\": invalid syntax"⟩
    ∧ parseFormValue (.uint .w16 0) "-1"
      = .error ⟨"-1", "uint16", "strconv.ParseUint: parsing \"-1\": invalid syntax"⟩
    ∧ parseFormValue (.uint .w32 0) "-1"
      = .error ⟨"-1", "uint32", "strconv.ParseUint: parsing \"-1\": invalid syntax"⟩
    ∧ parseFormValue (.uint .w64 0) "-1"
      = .error ⟨"-1", "uint64", "strconv.ParseUint: parsing \"-1\": invalid syntax"⟩
    ∧ parseFormValue (.uint .wNative 0) "-1"
      = .error ⟨"-1", "uint", "strconv.ParseUint: parsing \"-1\": invalid syntax"⟩ := by
  exact ⟨rfl, rfl, rfl, rfl, rfl, rfl, rfl⟩

/-! ## C6: what is skipped and what is not -/

def mapField : Field :=
  ⟨"M", "value", true, .scalar (.unsupported "map[string]string" "map[]")⟩

/-- Claim C6, counterexample: a settable field of an unsupported (map) kind
with one supplied value is not skipped — `parseFormValues` reaches the
default case of `parseFormValue` and returns the unsupported-kind error
(the repository's own test `TestInvalidUnmarshalType` expects exactly this
error for a `struct{}` field). -/
theorem unsupported_kind_not_skipped :
    parseFormValues mapField ["x"]
      = .error ⟨"x", "map[string]string",
          "type map[string]string cannot be unmarshalled from form"⟩ := rfl

/-- Claim C6, amended: a field with no supplied values, or a non-settable
field, is skipped without error and left unchanged; but a settable field of
an unsupported kind with a value supplied is an error, not a skip. -/
theorem skip_conditions (f : Field) :
    parseFormValues f [] = .ok f
    ∧ (∀ values, f.settable = false → parseFormValues f values = .ok f)
    ∧ (∀ t r s, f.val = .scalar (.unsupported t r) → f.settable = true →
        parseFormValues f [s]
          = .error ⟨s, t, "type " ++ t ++ " cannot be unmarshalled from form"⟩) := by
  refine ⟨by simp [parseFormValues], ?_, ?_⟩
  · intro values hset
    simp [parseFormValues, hset]
  · intro t r s hval hset
    obtain ⟨nm, tg, st, fv⟩ := f
    simp only at hval hset
    subst hval
    subst hset
    simp [parseFormValues, parseFormValue]

def roField : Field := ⟨"hidden", "value", false, .scalar (.str "keep")⟩

/-- Claim C6, witness: the three amended behaviours at concrete fields. -/
theorem skip_conditions_witness :
    parseFormValues mapField [] = .ok mapField
    ∧ parseFormValues roField ["x", "y"] = .ok roField
    ∧ parseFormValues mapField ["x"]
      = .error ⟨"x", "map[string]string",
          "type map[string]string cannot be unmarshalled from form"⟩ := by
  refine ⟨(skip_conditions mapField).1, ?_, ?_⟩
  · exact (skip_conditions roField).2.1 ["x", "y"] rfl
  · exact (skip_conditions mapField).2.2 "map[string]string" "map[]" "x" rfl rfl

/-! ## C7: invalid-argument diagnostics -/

/-- Modelled from the spec's words for comparison: the message the claim
assigns to each invalid-argument shape — nil gets the nil message, a
non-pointer or a (pointer to a) non-struct gets the non-pointer/non-struct
variant naming the type, and a nil pointer gets the typed nil message. -/
def claimedInvalidMessage : GoArg → Option String
  | .nilArg => some "form: Unmarshal(nil)"
  | .nonPtr t => some ("form: Unmarshal(non-pointer " ++ t ++ ")")
  | .ptrNonStruct t => some ("form: Unmarshal(non-pointer " ++ t ++ ")")
  | .nilPtr t => some ("form: Unmarshal(nil " ++ t ++ ")")
  | .ptrStruct _ => none

/-- The message `Unmarshal` actually produces for each invalid shape: a
non-nil pointer to a non-struct also receives the "nil <type>" variant,
because `InvalidUnmarshalError.Error` distinguishes only nil type /
non-pointer kind / pointer kind. -/
def actualInvalidMessage : GoArg → Option String
  | .nilArg => some "form: Unmarshal(nil)"
  | .nonPtr t => some ("form: Unmarshal(non-pointer " ++ t ++ ")")
  | .ptrNonStruct t => some ("form: Unmarshal(nil " ++ t ++ ")")
  | .nilPtr t => some ("form: Unmarshal(nil " ++ t ++ ")")
  | .ptrStruct _ => none

/-- Claim C7, counterexample: for a non-nil `*float32` argument — an
invalid argument of the "non-struct" shape — `Unmarshal` produces
`form: Unmarshal(nil *float32)` (the repository's own test expects this),
which is the nil-pointer variant, not the variant the claim assigns to a
non-struct argument. -/
theorem invalid_arg_message_counterexample :
    Unmarshal [] (.ptrNonStruct "*float32")
      = .error (.invalid ⟨some "*float32", true⟩)
    ∧ unmarshalErrorMessage ⟨some "*float32", true⟩ = "form: Unmarshal(nil *float32)"
    ∧ claimedInvalidMessage (.ptrNonStruct "*float32")
      = some "form: Unmarshal(non-pointer *float32)"
    ∧ unmarshalErrorMessage ⟨some "*float32", true⟩
      ≠ "form: Unmarshal(non-pointer *float32)" := by
  exact ⟨rfl, rfl, rfl, by decide⟩

/-- Claim C7, amended: every argument that is not a non-nil pointer to a
struct is rejected with an `InvalidUnmarshalError`; nil yields
`form: Unmarshal(nil)`, a non-pointer yields the "non-pointer <type>"
variant, and every pointer argument — nil, or non-nil pointing at a
non-struct — yields `form: Unmarshal(nil <type>)`. -/
theorem invalid_arg_messages (form : Form) (arg : GoArg)
    (h : ∀ s, arg ≠ .ptrStruct s) :
    ∃ e, Unmarshal form arg = .error (.invalid e)
      ∧ some (unmarshalErrorMessage e) = actualInvalidMessage arg := by
  cases arg with
  | nilArg => exact ⟨⟨none, false⟩, rfl, rfl⟩
  | nonPtr t => exact ⟨⟨some t, false⟩, rfl, rfl⟩
  | nilPtr t => exact ⟨⟨some t, true⟩, rfl, rfl⟩
  | ptrNonStruct t => exact ⟨⟨some t, true⟩, rfl, rfl⟩
  | ptrStruct s => exact absurd rfl (h s)

/-- Claim C7, witness: the amended message mapping at a nil `*float32`
pointer. -/
theorem invalid_arg_messages_witness :
    ∃ e, Unmarshal [] (.nilPtr "*float32") = .error (.invalid e)
      ∧ some (unmarshalErrorMessage e) = actualInvalidMessage (.nilPtr "*float32") :=
  invalid_arg_messages [] (.nilPtr "*float32") (fun s h => by cases h)

/-! ## C8: scalar formats -/

theorem natReprL_length_le (n k : Nat) (h : n < 10 ^ k) (hk : 1 ≤ k) :
    (natReprL n).length ≤ k := by
  unfold natReprL
  by_cases h0 : n = 0
  · simpa [h0] using hk
  · simp only [h0, if_false, List.length_map, List.length_reverse]
    exact natDigitsAux_len_le n n k h

theorem padZeros_length (k : Nat) (cs : List Char) (h : cs.length ≤ k) :
    (padZeros k cs).length = k := by
  simp [padZeros]
  omega

theorem padZeros_length_ge (k : Nat) (cs : List Char) :
    k ≤ (padZeros k cs).length := by
  simp [padZeros]
  omega

theorem natReprL_all_digits (n : Nat) : (natReprL n).all isDigit = true := by
  rw [List.all_eq_true]
  intro c hc
  unfold natReprL at hc
  by_cases h0 : n = 0
  · rw [if_pos h0] at hc
    simp at hc
    subst hc
    rfl
  · rw [if_neg h0, List.mem_map] at hc
    obtain ⟨d, hd, rfl⟩ := hc
    have hlt : d < 10 := natDigits_lt n d (List.mem_reverse.mp hd)
    exact digitVal_isDigit _ d (digitVal_digitChar d hlt)

theorem padZeros_all_digits (k : Nat) (cs : List Char) (h : cs.all isDigit = true) :
    (padZeros k cs).all isDigit = true := by
  rw [List.all_eq_true] at h ⊢
  intro c hc
  rw [padZeros, List.mem_append] at hc
  rcases hc with hc | hc
  · rw [List.eq_of_mem_replicate hc]
    rfl
  · exact h c hc

theorem fmtFixed_shape (neg : Bool) (m : Nat) :
    ∃ ip fr, fmtFixed neg m = ip ++ '.' :: fr
      ∧ fr.length = 6 ∧ fr.all isDigit = true := by
  refine ⟨(if neg then ['-'] else []) ++ natReprL (m / 1000000),
    padZeros 6 (natReprL (m % 1000000)), ?_, ?_, ?_⟩
  · simp [fmtFixed, List.append_assoc]
  · exact padZeros_length 6 _
      (natReprL_length_le _ 6 (Nat.mod_lt m (by norm_num)) (by norm_num))
  · exact padZeros_all_digits 6 _ (natReprL_all_digits _)

theorem fmtSci_shape (neg : Bool) (m : Nat) (ex : Int) :
    ∃ mant fr esgn exd, fmtSci neg m ex = mant ++ '.' :: (fr ++ 'e' :: esgn :: exd)
      ∧ fr.length = 6 ∧ fr.all isDigit = true
      ∧ (esgn = '+' ∨ esgn = '-') ∧ 2 ≤ exd.length ∧ exd.all isDigit = true := by
  refine ⟨(if neg then ['-'] else []) ++ natReprL (m / 1000000),
    padZeros 6 (natReprL (m % 1000000)),
    (if ex < 0 then '-' else '+'),
    padZeros 2 (natReprL ex.natAbs), ?_, ?_, ?_, ?_, ?_, ?_⟩
  · simp [fmtSci, fmtFixed, List.append_assoc]
  · exact padZeros_length 6 _
      (natReprL_length_le _ 6 (Nat.mod_lt m (by norm_num)) (by norm_num))
  · exact padZeros_all_digits 6 _ (natReprL_all_digits _)
  · by_cases hex : ex < 0
    · exact Or.inr (by rw [if_pos hex])
    · exact Or.inl (by rw [if_neg hex])
  · exact padZeros_length_ge 2 _
  · exact padZeros_all_digits 2 _ (natReprL_all_digits _)

theorem fmtEL_shape (q : ℚ) :
    ∃ mant fr esgn exd, fmtEL q = mant ++ '.' :: (fr ++ 'e' :: esgn :: exd)
      ∧ fr.length = 6 ∧ fr.all isDigit = true
      ∧ (esgn = '+' ∨ esgn = '-') ∧ 2 ≤ exd.length ∧ exd.all isDigit = true := by
  by_cases hq : q = 0
  · exact ⟨['0'], ['0', '0', '0', '0', '0', '0'], '+', ['0', '0'],
      by rw [hq]; rfl, rfl, rfl, Or.inl rfl, by norm_num, rfl⟩
  · simp only [fmtEL, hq, if_false]
    by_cases hm : rdivEven (q.num.natAbs * 10 ^ ((6 : Int) - floorLog10 |q|).toNat)
        (q.den * 10 ^ (-((6 : Int) - floorLog10 |q|)).toNat) = 10 ^ 7
    · rw [if_pos hm]
      exact fmtSci_shape _ _ _
    · rw [if_neg hm]
      exact fmtSci_shape _ _ _

theorem fmtEL_neg (q : ℚ) (h : q < 0) : ∃ t, fmtEL q = '-' :: t := by
  have hq : q ≠ 0 := ne_of_lt h
  have hd : decide (q < 0) = true := decide_eq_true h
  simp only [fmtEL, hq, if_false]
  by_cases hm : rdivEven (q.num.natAbs * 10 ^ ((6 : Int) - floorLog10 |q|).toNat)
      (q.den * 10 ^ (-((6 : Int) - floorLog10 |q|)).toNat) = 10 ^ 7
  · rw [if_pos hm, hd]
    exact ⟨_, rfl⟩
  · rw [if_neg hm, hd]
    exact ⟨_, rfl⟩

/-- Claim C8: `marshalFormValue` appends the string unchanged for a string
field; "true"/"false" for a bool; the base-10 decimal for signed and
unsigned integers (re-parsing the rendering with the strconv parsers
recovers the value); the `%f` fixed-point form with exactly six digit
characters after the point for a float; and for a complex the
parenthesised pair of `%e` scientific components, the imaginary component
and its sign always present, each `%e` component carrying six fraction
digits and a signed two-or-more-digit exponent. -/
theorem marshal_scalar_formats (tag : String) (form : Form) :
    (∀ s, marshalFormValue tag (.str s) form = .ok (formAdd form tag s))
    ∧ (∀ b, marshalFormValue tag (.bool b) form
        = .ok (formAdd form tag (if b then "true" else "false")))
    ∧ (∀ w v, marshalFormValue tag (.int w v) form = .ok (formAdd form tag (intRepr v)))
    ∧ (∀ v : Int, -(2 ^ 63) ≤ v → v ≤ 2 ^ 63 - 1 → parseGoInt (intRepr v) = .ok v)
    ∧ (∀ w n, marshalFormValue tag (.uint w n) form = .ok (formAdd form tag (natRepr n)))
    ∧ (∀ n : Nat, n < 2 ^ 64 → parseGoUint (natRepr n) = .ok n)
    ∧ (∀ w q, marshalFormValue tag (.float w q) form = .ok (formAdd form tag (fmtF q)))
    ∧ (∀ q : ℚ, ∃ ip fr, fmtFL q = ip ++ '.' :: fr ∧ fr.length = 6 ∧ fr.all isDigit = true)
    ∧ (∀ w re im, marshalFormValue tag (.cplx w re im) form
        = .ok (formAdd form tag (fmtComplex re im)))
    ∧ (∀ q : ℚ, ∃ mant fr esgn exd, fmtEL q = mant ++ '.' :: (fr ++ 'e' :: esgn :: exd)
        ∧ fr.length = 6 ∧ fr.all isDigit = true
        ∧ (esgn = '+' ∨ esgn = '-') ∧ 2 ≤ exd.length ∧ exd.all isDigit = true)
    ∧ (∀ re im : ℚ, 0 ≤ im →
        fmtComplexL re im = '(' :: (fmtEL re ++ '+' :: fmtEL im ++ ['i', ')']))
    ∧ (∀ re im : ℚ, im < 0 →
        fmtComplexL re im = '(' :: (fmtEL re ++ fmtEL im ++ ['i', ')'])
        ∧ ∃ t, fmtEL im = '-' :: t) := by
  refine ⟨fun s => rfl, fun b => rfl, fun w v => rfl,
    fun v hlo hhi => parseGoInt_intRepr v hlo hhi,
    fun w n => rfl, fun n h => parseGoUint_natRepr n h, fun w q => rfl,
    fun q => fmtFixed_shape _ _, fun w re im => rfl, fun q => fmtEL_shape q,
    ?_, ?_⟩
  · intro re im h0
    simp [fmtComplexL, not_lt.mpr h0]
  · intro re im hneg
    exact ⟨by simp [fmtComplexL, hneg], fmtEL_neg im hneg⟩

/-- Claim C8, witness: concrete formats, including the integer decimal
round trips with their range hypotheses discharged. -/
theorem marshal_scalar_formats_witness :
    marshalFormValue "t" (.float .f64 8) [] = .ok [("t", ["8.000000"])]
    ∧ parseGoInt (intRepr (-42)) = .ok (-42)
    ∧ parseGoUint (natRepr 257) = .ok 257
    ∧ marshalFormValue "t" (.cplx .c128 8 0) []
      = .ok [("t", ["(8.000000e+00+0.000000e+00i)"])] := by
  obtain ⟨h1, h2, h3, h4, h5, h6, h7, h8, h9, h10, h11, h12⟩ :=
    marshal_scalar_formats "t" []
  refine ⟨?_, h4 (-42) (by norm_num) (by norm_num), h6 257 (by norm_num), ?_⟩
  · rw [h7 .f64 8]
    rfl
  · rw [h9 .c128 8 0]
    rfl

/-! ## C9: failing sequence fields are never partially written -/

def isSeq : FieldVal → Bool
  | .slice _ _ => true
  | .arr _ _ => true
  | .scalar _ => false

/-- Claim C9: when every field before a slice/array field decodes and that
field's values fail to convert, the walk stops there: the failing field
appears in the output with its prior value untouched (the fresh sequence
built by `parseFormValues` is discarded, never partially assigned), the
later fields are untouched, and the earlier fields keep their newly
assigned values (no rollback). -/
theorem seq_field_failure_frame (sname : String) (F : Form) (fs₁ fs₂ : List Field)
    (f : Field) (e : UErr)
    (hseq : isSeq f.val = true)
    (hok : (unmarshalFields sname F fs₁).2 = none)
    (hfail : parseFormValues f (formLookup F f.tag) = .error e) :
    unmarshalFields sname F (fs₁ ++ f :: fs₂)
      = ((unmarshalFields sname F fs₁).1 ++ f :: fs₂,
         some ⟨e.value, e.typeName, sname, f.name, e.errMsg⟩) := by
  induction fs₁ with
  | nil =>
    simp [unmarshalFields, hfail]
  | cons g gs ih =>
    cases hg : parseFormValues g (formLookup F g.tag) with
    | error e2 => simp [unmarshalFields, hg] at hok
    | ok g2 =>
      have hok2 : (unmarshalFields sname F gs).2 = none := by
        simpa [unmarshalFields, hg] using hok
      simp [unmarshalFields, hg, ih hok2]

def frameForm : Form := [("a", ["1"]), ("v", ["5", "x"])]
def framePre : List Field := [⟨"A", "a", true, .scalar (.int .wNative 0)⟩]
def frameFail : Field := ⟨"V", "v", true, .slice (.int .wNative) [.int .wNative 9]⟩
def framePost : List Field := [⟨"B", "b", true, .scalar (.str "keep")⟩]

/-- Claim C9, witness: the field `V` fails on its second value `"x"`; in
the output it still holds its prior one-element slice, the earlier field
`A` holds its decoded value, and the later field `B` is untouched. -/
theorem seq_field_failure_frame_witness :
    unmarshalFields "s" frameForm (framePre ++ frameFail :: framePost)
      = ((unmarshalFields "s" frameForm framePre).1 ++ frameFail :: framePost,
         some ⟨"[5, x]", "[]int", "s", "V",
           "strconv.ParseInt: parsing \"x\": invalid syntax"⟩) :=
  seq_field_failure_frame "s" frameForm framePre framePost frameFail
    ⟨"[5, x]", "[]int", "strconv.ParseInt: parsing \"x\": invalid syntax"⟩
    rfl rfl rfl

/-! ## C10: the raw query is written only after full success -/

/-- Claim C10: `Marshal` touches the request only after every tagged field
has formatted: on any error — invalid argument or `MarshalTypeError` — the
request (and so its raw query) is returned unchanged; on success the raw
query is exactly the encoding of the accumulated form, whatever it held
before. -/
theorem marshal_writes_query_last (req : Request) (arg : GoArg) :
    ((Marshal req arg).2.isSome = true → (Marshal req arg).1 = req)
    ∧ (∀ s F, arg = .ptrStruct s → marshalFields s.name [] s.fields = .ok F →
        Marshal req arg = (⟨encodeForm F⟩, none)) := by
  constructor
  · intro hsome
    cases arg with
    | nilArg => rfl
    | nonPtr t => rfl
    | nilPtr t => rfl
    | ptrNonStruct t => rfl
    | ptrStruct s =>
      simp only [Marshal] at hsome ⊢
      cases hm : marshalFields s.name [] s.fields with
      | error e => simp [hm]
      | ok F =>
        rw [hm] at hsome
        simp at hsome
  · intro s F harg hF
    subst harg
    simp [Marshal, hF]

def unsupportedStruct : GoStruct :=
  ⟨"m", [⟨"M", "m", true, .scalar (.unsupported "map[string]int" "map[]")⟩]⟩

def pageStruct : GoStruct :=
  ⟨"p", [⟨"Page", "pageNumber", true, .scalar (.int .wNative 2)⟩,
         ⟨"PageSize", "pageSize", true, .scalar (.int .wNative 200)⟩]⟩

/-- Claim C10, witness: a failing marshal leaves the pre-existing query
`"old"` in place; a succeeding one replaces it entirely with the encoded
form. -/
theorem marshal_writes_query_last_witness :
    (Marshal ⟨"old"⟩ (.ptrStruct unsupportedStruct)).1 = ⟨"old"⟩
    ∧ Marshal ⟨"old"⟩ (.ptrStruct pageStruct)
      = (⟨"pageNumber=2&pageSize=200"⟩, none) := by
  refine ⟨(marshal_writes_query_last ⟨"old"⟩ (.ptrStruct unsupportedStruct)).1 rfl, ?_⟩
  have h := (marshal_writes_query_last ⟨"old"⟩ (.ptrStruct pageStruct)).2 pageStruct
    [("pageNumber", ["2"]), ("pageSize", ["200"])] rfl rfl
  rw [h]
  rfl
